import Mathlib

/-!
Shallow embedding of `src/AmazonProductDataExploration.py` (a Databricks /
PySpark notebook over the Amazon product co-purchasing dataset).

The notebook's own logic is:
* a metadata record parser built from `spark.read.text` with a custom line
  separator plus `regexp_extract` calls (lines 114-137 of the source),
* four tab-delimited edge-list loads with a `#` comment marker and a
  two-`IntegerType`-column schema (lines 59-90),
* a rating-percentage query for one product (lines 181-201),
* a cross-snapshot bidirectional-edge intersection query (lines 215-259),
* a GraphFrames `bfs` call (lines 305-331); the BFS algorithm itself lives in
  the external GraphFrames library, so it is modelled from the spec.

Strings are modelled by `String`, Spark integer columns by `Int` (node ids are
small, no arithmetic is performed on them, so 32-bit overflow never matters),
and floating-point percentage columns by `ℚ` (exact arithmetic).
-/

set_option maxRecDepth 100000

namespace AmazonProductData

/-! ## A Java-style backtracking regex engine

The three patterns used by the notebook (`regex` on source line 118, the
id/ASIN anchor pattern on lines 121-122, and `rating:\s+(\d+)` on line 188)
use only: string literals, single-character classes (`\d`, `\s`, `\w`, `.`,
`[\w\W]`, `[\s\S]`, `-`, `\.`), greedy and lazy `*`/`+` over a single
character class, and numbered capture groups.  The engine below implements
exactly this subset with `java.util.regex` semantics: the match is searched
leftmost-first, and at a given start position alternatives are tried in
backtracking preference order (greedy = longest first, lazy = shortest
first); the first element of the returned list is the preferred match. -/

/-- A group-free pattern element: a string literal, a single-character
class, or a greedy/lazy `*`/`+` over a single character class.  (The boolean
is the greediness flag.) -/
inductive Atom : Type where
  | lit : List Char → Atom
  | cls : (Char → Bool) → Atom
  | star : (Char → Bool) → Bool → Atom
  | plus : (Char → Bool) → Bool → Atom

/-- A pattern element: an atom, or a numbered capture group over a sequence
of atoms.  Neither notebook pattern nests a group inside a group, so this
two-level shape covers them exactly (and keeps every matcher below
structurally recursive, hence kernel-reducible). -/
inductive RE : Type where
  | atom : Atom → RE
  | grp : Nat → List Atom → RE

/-- Length of the maximal run of characters satisfying `p`. -/
def runLen (p : Char → Bool) : List Char → Nat
  | [] => 0
  | c :: s => if p c then runLen p s + 1 else 0

/-- Consumption candidates for `p*` over a maximal run of length `k`,
in backtracking preference order. -/
def starChoices (greedy : Bool) (k : Nat) : List Nat :=
  if greedy then (List.range (k + 1)).reverse else List.range (k + 1)

/-- Consumption candidates for `p+` (at least one character). -/
def plusChoices (greedy : Bool) (k : Nat) : List Nat :=
  (starChoices greedy k).filter (fun i => i ≠ 0)

/-- Match a literal against a prefix of the input, returning the rest. -/
def litMatch : List Char → List Char → Option (List Char)
  | [], s => some s
  | _ :: _, [] => none
  | c :: cs, d :: s => if c = d then litMatch cs s else none

/-- All ways a single atom can consume a prefix of the input, as the list of
remaining inputs in backtracking preference order. -/
def matom : Atom → List Char → List (List Char)
  | Atom.lit l, s =>
      match litMatch l s with
      | some s' => [s']
      | none => []
  | Atom.cls p, s =>
      match s with
      | [] => []
      | c :: s' => if p c then [s'] else []
  | Atom.star p g, s => (starChoices g (runLen p s)).map (fun i => s.drop i)
  | Atom.plus p g, s => (plusChoices g (runLen p s)).map (fun i => s.drop i)

/-- All ways a sequence of atoms can consume a prefix of the input, in
backtracking preference order. -/
def matoms : List Atom → List Char → List (List Char)
  | [], s => [s]
  | a :: rest, s => (matom a s).flatMap (fun s' => matoms rest s')

/-- All ways a pattern can match a prefix of `s`, in backtracking preference
order.  Each result is the remaining input together with the captured groups
(group index, captured characters). -/
def mseq : List RE → List Char → List (List Char × List (Nat × List Char))
  | [], s => [(s, [])]
  | RE.atom a :: rest, s => (matom a s).flatMap (fun s' => mseq rest s')
  | RE.grp n inner :: rest, s =>
      (matoms inner s).flatMap (fun s' =>
        (mseq rest s').map (fun r2 =>
          (r2.1, (n, s.take (s.length - s'.length)) :: r2.2)))

/-- Leftmost-first search (`java.util.regex` `find()`): try to match at the
current position, else advance one character. -/
def refind (pat : List RE) : List Char → Option (List (Nat × List Char))
  | [] => ((mseq pat []).head?).map (fun r => r.2)
  | c :: s' =>
      match ((mseq pat (c :: s')).head?).map (fun r => r.2) with
      | some caps => some caps
      | none => refind pat s'

/-- Spark's `regexp_extract(str, pattern, idx)`: the captured text of group
`idx` of the first match, or the empty string when the pattern does not
match (or the group did not participate).  For a non-null input column the
result is never null, always a string. -/
def regexp_extract (s : String) (pat : List RE) (idx : Nat) : String :=
  match refind pat s.toList with
  | none => ""
  | some caps =>
      match caps.lookup idx with
      | some cs => String.mk cs
      | none => ""

/-! Character classes of the patterns (Java semantics: `\s` is
`[ \t\n\x0B\f\r]`, `\w` is `[a-zA-Z0-9_]`, `.` excludes line terminators). -/

def wsChar (c : Char) : Bool :=
  c == ' ' || c == '\t' || c == '\n' || c == '\x0b' || c == '\x0c' || c == '\r'

def digitChar (c : Char) : Bool := c.isDigit

def wordChar (c : Char) : Bool := c.isAlphanum || c == '_'

def dotChar (c : Char) : Bool := !(c == '\n' || c == '\r')

def anyChar (_ : Char) : Bool := true

/-- Shorthand constructors used to transcribe the patterns. -/
def reLit (l : String) : RE := RE.atom (Atom.lit l.toList)

def reStar (p : Char → Bool) (g : Bool) : RE := RE.atom (Atom.star p g)

def rePlus (p : Char → Bool) (g : Bool) : RE := RE.atom (Atom.plus p g)

/-- The id/ASIN anchor pattern of source lines 121-122:
`(\d+)\s*\nASIN:\s+(\w+)\s*\n`. -/
def idAsinPat : List RE :=
  [RE.grp 1 [Atom.plus digitChar true], reStar wsChar true, reLit "\n",
   reLit "ASIN:", rePlus wsChar true, RE.grp 2 [Atom.plus wordChar true],
   reStar wsChar true, reLit "\n"]

/-- The composite metadata pattern of source line 118:
`Id:\s*(\d+)\s*\nASIN:\s+(\w+)\s*\n\s*title:\s*([\w\W]+)\s*\r\n\s*group:\s+(.+)\s*\n\s*salesrank:\s*(-*\d+)\s*\n\s*similar:\s+(\d+)\s*(\d*.*?)\s*\n\s*categories:\s*(\d+)\s*\n\s*([\s\S]*)reviews:\s+total:\s+(\d+)\s+downloaded:\s+(\d+)\s+avg rating:\s+(\d+\.*\d*)\s*\n\s*([\s\S]*)`. -/
def metaPat : List RE :=
  [reLit "Id:", reStar wsChar true, RE.grp 1 [Atom.plus digitChar true],
   reStar wsChar true, reLit "\n",
   reLit "ASIN:", rePlus wsChar true, RE.grp 2 [Atom.plus wordChar true],
   reStar wsChar true, reLit "\n", reStar wsChar true,
   reLit "title:", reStar wsChar true, RE.grp 3 [Atom.plus anyChar true],
   reStar wsChar true, reLit "\r\n", reStar wsChar true,
   reLit "group:", rePlus wsChar true, RE.grp 4 [Atom.plus dotChar true],
   reStar wsChar true, reLit "\n", reStar wsChar true,
   reLit "salesrank:", reStar wsChar true,
   RE.grp 5 [Atom.star (fun c => c == '-') true, Atom.plus digitChar true],
   reStar wsChar true, reLit "\n", reStar wsChar true,
   reLit "similar:", rePlus wsChar true, RE.grp 6 [Atom.plus digitChar true],
   reStar wsChar true,
   RE.grp 7 [Atom.star digitChar true, Atom.star dotChar false],
   reStar wsChar true, reLit "\n", reStar wsChar true,
   reLit "categories:", reStar wsChar true, RE.grp 8 [Atom.plus digitChar true],
   reStar wsChar true, reLit "\n", reStar wsChar true,
   RE.grp 9 [Atom.star anyChar true],
   reLit "reviews:", rePlus wsChar true, reLit "total:",
   rePlus wsChar true, RE.grp 10 [Atom.plus digitChar true],
   rePlus wsChar true, reLit "downloaded:", rePlus wsChar true,
   RE.grp 11 [Atom.plus digitChar true], rePlus wsChar true,
   reLit "avg rating:", rePlus wsChar true,
   RE.grp 12 [Atom.plus digitChar true, Atom.star (fun c => c == '.') true,
              Atom.star digitChar true],
   reStar wsChar true, reLit "\n", reStar wsChar true,
   RE.grp 13 [Atom.star anyChar true]]

/-- The rating pattern of source line 188: `rating:\s+(\d+)`. -/
def ratingPat : List RE :=
  [reLit "rating:", rePlus wsChar true, RE.grp 1 [Atom.plus digitChar true]]

/-! ## Whitespace split

`F.split(col, "\s+")` (source line 134) is Java `String.split("\s+", -1)`:
the input is cut at every maximal whitespace run, keeping empty leading and
trailing pieces, and the empty string yields `[""]`. -/

def splitWsGo : Nat → List Char → List (List Char)
  | 0, s => [s]
  | fuel + 1, s =>
      let tok := s.takeWhile (fun c => !wsChar c)
      let rest := s.dropWhile (fun c => !wsChar c)
      match rest with
      | [] => [tok]
      | _ :: rest' => tok :: splitWsGo fuel (rest'.dropWhile wsChar)

def splitWs (s : String) : List String :=
  (splitWsGo (s.toList.length + 1) s.toList).map String.mk

/-! ## Literal-separator split

Used for `spark.read.text(..., lineSep="\r\n\r\n")` and for
`F.split(col, "\r\n")` / the tab-delimited edge schema (a regex or delimiter
with no metacharacters splits on the literal separator, keeping empty
pieces; the empty string yields `[""]`). -/

def splitOnSepGo (sep : List Char) : Nat → List Char → List (List Char)
  | 0, s => [s]
  | fuel + 1, s =>
      match litMatch sep s with
      | some rest => [] :: splitOnSepGo sep fuel rest
      | none =>
          match s with
          | [] => [[]]
          | c :: s' =>
              match splitOnSepGo sep fuel s' with
              | [] => [[c]]
              | piece :: pieces => (c :: piece) :: pieces

def splitOnSep (s sep : String) : List String :=
  (splitOnSepGo sep.toList (s.toList.length + 1) s.toList).map String.mk

/-- Parse an optionally-signed decimal integer field, as the framework's
`IntegerType` cast does; any other content is null. -/
def digitsToNat : List Char → Option Nat
  | [] => some 0
  | c :: s =>
      if c.isDigit then
        (digitsToNat s).map (fun n => (c.toNat - '0'.toNat) * 10 ^ s.length + n)
      else none

def parseIntField (s : String) : Option Int :=
  match s.toList with
  | [] => none
  | '-' :: rest =>
      match rest with
      | [] => none
      | _ => (digitsToNat rest).map (fun n => -(n : Int))
  | l => (digitsToNat l).map (fun n => (n : Int))

/-! ## The metadata record parser (source lines 114-137) -/

/-- One row of `metadata_df`: the original text block plus the extracted
columns, in the order the source adds them with `withColumn`. -/
structure ProductRecord where
  value : String
  id : String
  asin : String
  title : String
  group : String
  salesrank : String
  similar_count : String
  similar : List String
  categories_count : String
  categories : List String
  reviews_total : String
  reviews_downloaded : String
  reviews_avg_rating : String
  reviews : List String
deriving DecidableEq

/-- The `withColumn` chain applied to one text block (source lines 120-136):
each column is a `regexp_extract`, then `similar` is split on `\s+` and
`categories`/`reviews` are split on the literal `\r\n`. -/
def mkRow (value : String) : ProductRecord :=
  { value := value
    id := regexp_extract value idAsinPat 1
    asin := regexp_extract value idAsinPat 2
    title := regexp_extract value metaPat 3
    group := regexp_extract value metaPat 4
    salesrank := regexp_extract value metaPat 5
    similar_count := regexp_extract value metaPat 6
    similar := splitWs (regexp_extract value metaPat 7)
    categories_count := regexp_extract value metaPat 8
    categories := splitOnSep (regexp_extract value metaPat 9) "\r\n"
    reviews_total := regexp_extract value metaPat 10
    reviews_downloaded := regexp_extract value metaPat 11
    reviews_avg_rating := regexp_extract value metaPat 12
    reviews := splitOnSep (regexp_extract value metaPat 13) "\r\n" }

/-- `spark.read.text(..., lineSep="\r\n\r\n")` (source line 119): one row per
text block, blocks separated by `\r\n\r\n`. -/
def df1 (raw : String) : List String := splitOnSep raw "\r\n\r\n"

/-- The extracted `id` column of a block (group 1 of the anchor pattern). -/
def extractId (block : String) : String := regexp_extract block idAsinPat 1

/-- `metadata_df` (source lines 120-137): the `withColumn` chain followed by
`.where(col("id").isNotNull() & (col("id") != ""))`.  `regexp_extract` never
returns null on the non-null `value` column, so the filter is `id ≠ ""`. -/
def metadata_df (raw : String) : List ProductRecord :=
  ((df1 raw).map mkRow).filter (fun r => r.id ≠ "")

/-! ## The edge set loader (source lines 59-90)

The repository declares a two-`IntegerType`-column schema (`conn_schema`),
a tab delimiter and the `#` comment marker; the CSV reading itself is done
by the framework.  Modelled from the spec: "line-oriented parse; lines
starting with the comment marker are skipped; remaining lines are split on
the tab delimiter into exactly two integer fields per the fixed schema" and
"malformed lines (wrong field count, non-integer) are expected to be
dropped/nulled rather than aborting the load". -/

/-- A line is a comment when it starts with the `#` marker
(`.option("comment", "#")`, source line 70). -/
def isCommentLine (l : String) : Bool :=
  match l.toList with
  | c :: _ => c == '#'
  | [] => false

def parseEdgeLine (l : String) : Option (Int × Int) :=
  if isCommentLine l then none
  else
    match splitOnSep l "\t" with
    | [f, t] =>
        match parseIntField f, parseIntField t with
        | some u, some v => some (u, v)
        | _, _ => none
    | _ => none

def loadEdges (lines : List String) : List (Int × Int) :=
  lines.filterMap parseEdgeLine

/-! ## Query (b): cross-snapshot consistent bidirectional pairs
(source lines 215-259) -/

/-- Set intersection of two edge tables, as Spark's `DataFrame.intersect`
(distinct rows occurring in both). -/
def dfIntersect (l1 l2 : List (Int × Int)) : List (Int × Int) :=
  (l1.filter (fun e => e ∈ l2)).dedup

/-- `SELECT DISTINCT e1.FromNodeId, e1.ToNodeId FROM e e1 JOIN e e2 ON
e1.FromNodeId = e2.ToNodeId AND e1.ToNodeId = e2.FromNodeId` (source lines
224-250): the distinct rows of `e` whose swapped row is also in `e`. -/
def bidirectionalEdges (e : List (Int × Int)) : List (Int × Int) :=
  (e.filter (fun p => (p.2, p.1) ∈ e)).dedup

/-- `consistent_bidirectional_edges` (source lines 253-256): the per-snapshot
bidirectional rows, intersected across the four snapshots. -/
def consistent_bidirectional_edges
    (e1 e2 e3 e4 : List (Int × Int)) : List (Int × Int) :=
  dfIntersect (dfIntersect (dfIntersect
    (bidirectionalEdges e1) (bidirectionalEdges e2))
    (bidirectionalEdges e3)) (bidirectionalEdges e4)

/-! ## Query (a): rating percentages for one product (source lines 181-201) -/

/-- Filter to the records with the requested id and explode their `reviews`
arrays into one row per review line (source lines 184-187). -/
def product_reviews_df (records : List ProductRecord) (p : String) : List String :=
  ((records.filter (fun r => r.id = p)).map ProductRecord.reviews).flatten

/-- The `rating` column: `regexp_extract(review, r"rating:\s+(\d+)", 1)`
(source line 188). -/
def review_ratings (records : List ProductRecord) (p : String) : List String :=
  (product_reviews_df records p).map (fun rev => regexp_extract rev ratingPat 1)

/-- `groupBy("rating").count()` (source line 191): one row per distinct
rating value with its number of occurrences. -/
def rating_counts_df (records : List ProductRecord) (p : String) :
    List (String × Nat) :=
  (review_ratings records p).dedup.map
    (fun r => (r, (review_ratings records p).count r))

/-- `total_ratings = rating_counts_df.agg(F.sum("count"))...` (source line
194).  Spark's sum is null on an empty table; that case is unobservable
below because the percentage column is then computed over zero rows, so the
total is modelled as the (exact, rational) sum of the counts. -/
def total_ratings (records : List ProductRecord) (p : String) : ℚ :=
  ((rating_counts_df records p).map (fun rc => (rc.2 : ℚ))).sum

/-- Insertion step for `orderBy(col("rating").desc())`: insert before the
first strictly smaller rating string. -/
def insertRatingDesc (x : String × Nat × ℚ) :
    List (String × Nat × ℚ) → List (String × Nat × ℚ)
  | [] => [x]
  | y :: ys => if y.1 < x.1 then x :: y :: ys else y :: insertRatingDesc x ys

/-- `orderBy(col("rating").desc())` (source line 198): sort the rows by the
(string) rating column, descending. -/
def sortByRatingDesc (l : List (String × Nat × ℚ)) : List (String × Nat × ℚ) :=
  l.foldr insertRatingDesc []

/-- `rating_percentages_df` (source lines 195-198): each count row extended
with `count / total * 100`, sorted by rating descending. -/
def rating_percentages_df (records : List ProductRecord) (p : String) :
    List (String × Nat × ℚ) :=
  sortByRatingDesc ((rating_counts_df records p).map
    (fun rc => (rc.1, rc.2, ((rc.2 : ℚ) / total_ratings records p) * 100)))

/-! ## Query (c): first divergent category path (source lines 305-331)

The notebook resolves a start product's `id` and `group` and calls
`g.bfs(f"id = {start_node_id}", f"group != '{start_node_group}' AND group != ''", maxPathLength=...)`.
The BFS algorithm itself lives in the external GraphFrames library, not in
the repository, so it is modelled from the spec (§4.3 (c)): a breadth-first
search over the directed edge graph starting at A's id, expanding via
outgoing edges, until a reachable node is found whose `group` differs from
A's group and is non-empty; bounded by a maximum path length; the first
shortest such path is returned (ties broken by traversal order), and "not
found" (`none`) is reported when no such node is within the bound. -/

/-- Modelled from the spec: the vertex table, reduced to the two columns the
search reads, as (id, group) pairs; the group of an absent id is empty. -/
def groupOf (verts : List (Int × String)) (v : Int) : String :=
  match (verts.filter (fun x => x.1 = v)).head? with
  | some x => x.2
  | none => ""

/-- Outgoing neighbours of `u` in the edge snapshot. -/
def successors (E : List (Int × Int)) (u : Int) : List Int :=
  (E.filter (fun e => e.1 = u)).map (fun e => e.2)

/-- The walks of length `d` from `a` along directed edges, stored reversed
(head = current endpoint, last = `a`), in traversal order. -/
def rwalks (E : List (Int × Int)) (a : Int) : Nat → List (List Int)
  | 0 => [[a]]
  | d + 1 =>
      (rwalks E a d).flatMap
        (fun w => (successors E (w.headD a)).map (fun v => v :: w))

/-- The `toExpr` of the bfs call: `group != '<g0>' AND group != ''`. -/
def divergentB (verts : List (Int × String)) (g0 : String) (v : Int) : Bool :=
  !(groupOf verts v == g0) && !(groupOf verts v == "")

/-- First hit at exactly level `d`: the first walk of length `d` (in
traversal order) ending at a divergent-group node, returned head-first. -/
def levelHit (verts : List (Int × String)) (E : List (Int × Int))
    (a : Int) (g0 : String) (d : Nat) : Option (List Int) :=
  ((rwalks E a d).find? (fun w => divergentB verts g0 (w.headD a))).map
    List.reverse

/-- Level-by-level search: try depth 0, then 1, ..., up to the bound, so the
first hit is at the smallest possible depth. -/
def searchUpTo (verts : List (Int × String)) (E : List (Int × Int))
    (a : Int) (g0 : String) : Nat → Option (List Int)
  | 0 => levelHit verts E a g0 0
  | n + 1 =>
      match searchUpTo verts E a g0 n with
      | some p => some p
      | none => levelHit verts E a g0 (n + 1)

/-- Modelled from the spec: `firstDivergentCategoryPath(startId, maxDepth)`;
the start group is resolved from the vertex table, and `none` is the
"not found" report. -/
def firstDivergentCategoryPath (verts : List (Int × String))
    (E : List (Int × Int)) (a : Int) (maxDepth : Nat) : Option (List Int) :=
  searchUpTo verts E a (groupOf verts a) maxDepth

/-- The property the bfs searches for, as stated by the spec: `q` is a walk
along directed edges starting at `a` whose last node's group is non-empty
and differs from `g0`. -/
def IsDivergentWalk (verts : List (Int × String)) (E : List (Int × Int))
    (a : Int) (g0 : String) (q : List Int) : Prop :=
  q.head? = some a ∧ List.Chain' (fun u v => (u, v) ∈ E) q ∧
  ∃ t, q.getLast? = some t ∧ groupOf verts t ≠ g0 ∧ groupOf verts t ≠ ""

/-! ## Concrete inputs used by witnesses and counterexamples -/

/-- Two metadata blocks carrying the same `Id:`. -/
def dupRaw : String := "Id: 1\nASIN: AAA\n\r\n\r\nId: 1\nASIN: BBB\n"

/-- Two metadata blocks with distinct ids. -/
def twoRaw : String := "Id: 1\nASIN: AAA\n\r\n\r\nId: 2\nASIN: BBB\n"

/-- A fully well-formed metadata block for a product with zero reviews
(`total: 0` and an empty review section). -/
def zeroRevRaw : String :=
  "Id: 7\nASIN: B\n title: T\r\n group: Book\n salesrank: 5\n similar: 0\n categories: 0\n reviews: total: 0 downloaded: 0 avg rating: 0\n"

/-- A parsed-record table holding one product (id 21) with three reviews. -/
def demoRecords : List ProductRecord :=
  [{ value := ""
     id := "21"
     asin := "X"
     title := "T"
     group := "Book"
     salesrank := "5"
     similar_count := "0"
     similar := [""]
     categories_count := "0"
     categories := [""]
     reviews_total := "3"
     reviews_downloaded := "3"
     reviews_avg_rating := "4.7"
     reviews := ["rating: 5 votes: 1", "rating: 4 votes: 1", "rating: 5 votes: 2"] }]

/-- A parsed record (id 9) whose reviews column is `[""]`, the parse of a
zero-review block. -/
def zeroRevRecord : ProductRecord :=
  { value := ""
    id := "9"
    asin := "Y"
    title := "T"
    group := "Book"
    salesrank := "5"
    similar_count := "0"
    similar := [""]
    categories_count := "0"
    categories := [""]
    reviews_total := "0"
    reviews_downloaded := "0"
    reviews_avg_rating := "0"
    reviews := [""] }

/-- A parsed-record table holding only `zeroRevRecord`. -/
def zeroRevRecords : List ProductRecord := [zeroRevRecord]

/-- A vertex table for the BFS examples: ids 1-3 are Books, id 4 is a DVD. -/
def demoVerts : List (Int × String) :=
  [(1, "Book"), (2, "Book"), (3, "Book"), (4, "DVD")]

/-- A chain 1 → 2 → 3 → 4: the nearest divergent-group node seen from 1 is
at depth 3. -/
def demoEdges : List (Int × Int) := [(1, 2), (2, 3), (3, 4)]

/-! ## Membership lemmas for the bidirectional-pair query -/

theorem mem_dfIntersect {l1 l2 : List (Int × Int)} {p : Int × Int} :
    p ∈ dfIntersect l1 l2 ↔ p ∈ l1 ∧ p ∈ l2 := by
  simp [dfIntersect, List.mem_dedup, List.mem_filter]

theorem mem_bidirectionalEdges {e : List (Int × Int)} {p : Int × Int} :
    p ∈ bidirectionalEdges e ↔ p ∈ e ∧ (p.2, p.1) ∈ e := by
  simp [bidirectionalEdges, List.mem_dedup, List.mem_filter]

theorem mem_consistent_bidirectional {e1 e2 e3 e4 : List (Int × Int)}
    {u v : Int} :
    (u, v) ∈ consistent_bidirectional_edges e1 e2 e3 e4 ↔
      (((u, v) ∈ e1 ∧ (v, u) ∈ e1) ∧ ((u, v) ∈ e2 ∧ (v, u) ∈ e2) ∧
       ((u, v) ∈ e3 ∧ (v, u) ∈ e3) ∧ ((u, v) ∈ e4 ∧ (v, u) ∈ e4)) := by
  simp [consistent_bidirectional_edges, mem_dfIntersect, mem_bidirectionalEdges]
  tauto

/-- C1: a pair {u, v} is in `consistent_bidirectional_edges` exactly when, in
each of the four snapshots, both directed edges (u→v) and (v→u) are present
in that same snapshot; in particular a pair bidirectional in all four
snapshots is in the result and a pair bidirectional in only three is not. -/
theorem consistent_bidirectional_pairs_exact
    (e1 e2 e3 e4 : List (Int × Int)) (u v : Int) :
    (u, v) ∈ consistent_bidirectional_edges e1 e2 e3 e4 ↔
      (((u, v) ∈ e1 ∧ (v, u) ∈ e1) ∧ ((u, v) ∈ e2 ∧ (v, u) ∈ e2) ∧
       ((u, v) ∈ e3 ∧ (v, u) ∈ e3) ∧ ((u, v) ∈ e4 ∧ (v, u) ∈ e4)) :=
  mem_consistent_bidirectional

/-- C9: a self-loop (u→u) present in all four snapshots yields the pair
(u, u) in the result: the swapped-endpoint join condition is satisfied by a
self-loop matched with itself, and no u ≠ v restriction is applied. -/
theorem self_loop_in_consistent_bidirectional
    (e1 e2 e3 e4 : List (Int × Int)) (u : Int)
    (h1 : (u, u) ∈ e1) (h2 : (u, u) ∈ e2)
    (h3 : (u, u) ∈ e3) (h4 : (u, u) ∈ e4) :
    (u, u) ∈ consistent_bidirectional_edges e1 e2 e3 e4 :=
  mem_consistent_bidirectional.mpr ⟨⟨h1, h1⟩, ⟨h2, h2⟩, ⟨h3, h3⟩, ⟨h4, h4⟩⟩

theorem self_loop_in_consistent_bidirectional_witness :
    ((5 : Int), (5 : Int)) ∈
      consistent_bidirectional_edges [(5, 5)] [(5, 5)] [(5, 5)] [(5, 5)] :=
  self_loop_in_consistent_bidirectional [(5, 5)] [(5, 5)] [(5, 5)] [(5, 5)] 5
    (by decide) (by decide) (by decide) (by decide)

/-- C10: the result, viewed as a set of directed (FromNodeId, ToNodeId)
rows, is symmetric: whenever (u, v) is in the result, (v, u) is too. -/
theorem consistent_bidirectional_symmetric
    (e1 e2 e3 e4 : List (Int × Int)) (u v : Int)
    (h : (u, v) ∈ consistent_bidirectional_edges e1 e2 e3 e4) :
    (v, u) ∈ consistent_bidirectional_edges e1 e2 e3 e4 := by
  rw [mem_consistent_bidirectional] at h ⊢
  tauto

theorem consistent_bidirectional_symmetric_witness :
    ((2 : Int), (1 : Int)) ∈
      consistent_bidirectional_edges [(1, 2), (2, 1)] [(1, 2), (2, 1)]
        [(1, 2), (2, 1)] [(1, 2), (2, 1)] :=
  consistent_bidirectional_symmetric [(1, 2), (2, 1)] [(1, 2), (2, 1)]
    [(1, 2), (2, 1)] [(1, 2), (2, 1)] 1 2 (by decide)

/-! ## The edge loader drops comment and malformed lines -/

theorem parseEdgeLine_eq_none {l : String}
    (h : isCommentLine l = true ∨ (splitOnSep l "\t").length ≠ 2 ∨
         ∃ f ∈ splitOnSep l "\t", parseIntField f = none) :
    parseEdgeLine l = none := by
  by_cases hc : isCommentLine l = true
  · simp [parseEdgeLine, hc]
  · have hc' : isCommentLine l = false := by simpa using hc
    rcases h with h | h | h
    · exact absurd h hc
    · rcases hs : splitOnSep l "\t" with _ | ⟨f, _ | ⟨t, _ | _⟩⟩ <;>
        simp_all [parseEdgeLine, hc', hs]
    · rcases hs : splitOnSep l "\t" with _ | ⟨f, _ | ⟨t, _ | _⟩⟩ <;>
        [skip; skip; skip; skip] <;> simp [parseEdgeLine, hc', hs]
      · rw [hs] at h
        rcases h with ⟨g, hm, hg⟩
        rcases List.mem_pair.mp hm with rfl | rfl
        · simp [hg]
        · rcases hf : parseIntField f with _ | u <;> simp [hf, hg]

/-- C4: the edge set excludes every line starting with the comment marker
`#` and every malformed line (wrong field count or non-integer fields):
inserting such a line into the input changes nothing. -/
theorem loadEdges_excludes_comment_and_malformed
    (pre post : List String) (l : String)
    (h : isCommentLine l = true ∨ (splitOnSep l "\t").length ≠ 2 ∨
         ∃ f ∈ splitOnSep l "\t", parseIntField f = none) :
    loadEdges (pre ++ l :: post) = loadEdges (pre ++ post) := by
  simp [loadEdges, List.filterMap_append, List.filterMap_cons,
    parseEdgeLine_eq_none h]

theorem loadEdges_excludes_witness :
    loadEdges ["1\t2", "#c", "3"] = loadEdges ["1\t2", "3"] ∧
    loadEdges ["1\t2", "3"] = loadEdges ["1\t2"] ∧
    loadEdges ["1\t2"] = [(1, 2)] :=
  ⟨loadEdges_excludes_comment_and_malformed ["1\t2"] ["3"] "#c"
      (Or.inl (by decide)),
   loadEdges_excludes_comment_and_malformed ["1\t2"] [] "3"
      (Or.inr (Or.inl (by decide))),
   by decide⟩

/-! ## Unknown product id yields an empty histogram -/

/-- C7: for a product id that is not the id of any parsed record, the
rating-percentage query returns the empty sequence (no error path exists:
it is an ordinary empty result). -/
theorem rating_histogram_unknown_product
    (records : List ProductRecord) (p : String)
    (h : ∀ r ∈ records, r.id ≠ p) :
    rating_percentages_df records p = [] := by
  have hf : records.filter (fun r => r.id = p) = [] := by
    simp only [List.filter_eq_nil_iff]
    simpa using h
  simp [rating_percentages_df, rating_counts_df, review_ratings,
    product_reviews_df, hf, sortByRatingDesc]

theorem rating_histogram_unknown_product_witness :
    rating_percentages_df demoRecords "99" = [] :=
  rating_histogram_unknown_product demoRecords "99" (by decide)

/-! ## Structure of the parser output -/

theorem mkRow_id (b : String) : (mkRow b).id = extractId b := rfl

theorem filter_map_comm {α β : Type} (f : α → β) (p : β → Bool) (l : List α) :
    (l.map f).filter p = (l.filter (fun a => p (f a))).map f := by
  induction l with
  | nil => rfl
  | cons a l ih => by_cases h : p (f a) <;> simp [h, ih]

theorem metadata_df_eq_filter_map (raw : String) :
    metadata_df raw = ((df1 raw).filter (fun b => extractId b ≠ "")).map mkRow :=
  filter_map_comm mkRow (fun r => decide (r.id ≠ "")) (df1 raw)

/-- The id column of the parser output: the non-empty extracted ids of the
blocks, in block order. -/
theorem metadata_ids (raw : String) :
    (metadata_df raw).map (fun r => r.id) =
      ((df1 raw).map extractId).filter (fun i => i ≠ "") := by
  rw [metadata_df_eq_filter_map, List.map_map]
  exact (filter_map_comm extractId (fun i => decide (i ≠ "")) (df1 raw)).symm

theorem regexp_extract_of_refind_none {s : String} {pat : List RE} {idx : Nat}
    (h : refind pat s.toList = none) : regexp_extract s pat idx = "" := by
  unfold regexp_extract
  rw [h]

theorem splitWs_empty : splitWs "" = [""] := rfl

theorem splitOnSep_empty : splitOnSep "" "\r\n" = [""] := rfl

/-- C8: the parser output has exactly one record per block from which a
non-empty id was extracted (a block with empty extracted id is dropped
entirely), and a kept block on which the composite pattern fails yields a
record whose composite-pattern fields are all empty-string defaults (the
three array columns being the whitespace / `\r\n` split of the empty
string, `[""]`). -/
theorem parser_one_record_per_id_block (raw : String) :
    metadata_df raw = ((df1 raw).filter (fun b => extractId b ≠ "")).map mkRow ∧
    (∀ b ∈ df1 raw, extractId b ≠ "" → refind metaPat b.toList = none →
      (mkRow b).id = extractId b ∧ (mkRow b).title = "" ∧
      (mkRow b).group = "" ∧ (mkRow b).salesrank = "" ∧
      (mkRow b).similar_count = "" ∧ (mkRow b).similar = [""] ∧
      (mkRow b).categories_count = "" ∧ (mkRow b).categories = [""] ∧
      (mkRow b).reviews_total = "" ∧ (mkRow b).reviews_downloaded = "" ∧
      (mkRow b).reviews_avg_rating = "" ∧ (mkRow b).reviews = [""]) := by
  refine ⟨metadata_df_eq_filter_map raw, fun b _ _ hfail => ?_⟩
  refine ⟨rfl, ?_, ?_, ?_, ?_, ?_, ?_, ?_, ?_, ?_, ?_, ?_⟩ <;>
    simp [mkRow, regexp_extract_of_refind_none hfail, splitWs_empty,
      splitOnSep_empty]

theorem parser_one_record_per_id_block_witness :
    ("Id: 1\nASIN: AAA\n" ∈ df1 dupRaw) ∧
    (mkRow "Id: 1\nASIN: AAA\n").title = "" ∧
    (mkRow "Id: 1\nASIN: AAA\n").reviews = [""] := by
  have h := (parser_one_record_per_id_block dupRaw).2 "Id: 1\nASIN: AAA\n"
    (by decide) (by decide) (by decide)
  exact ⟨by decide, h.2.1, h.2.2.2.2.2.2.2.2.2.2.2⟩

/-! ## Id uniqueness: not enforced by the parser -/

/-- C6 counterexample: a raw input whose two blocks both carry `Id: 1`
yields two different records (distinct ASINs) sharing the id "1" — the
parser never deduplicates ids. -/
theorem metadata_id_unique_counterexample :
    (metadata_df dupRaw).map (fun r => (r.id, r.asin)) =
      [("1", "AAA"), ("1", "BBB")] ∧
    ¬ ((metadata_df dupRaw).map (fun r => r.id)).Nodup := by
  constructor <;> decide

/-- C6 amended: the parser preserves block ids and never merges or
deduplicates them, so id uniqueness holds exactly under the dataset
assumption: if the non-empty extracted ids of the raw input's blocks are
pairwise distinct, then no two records of the output share the same id. -/
theorem metadata_id_unique_of_distinct_block_ids (raw : String)
    (h : (((df1 raw).map extractId).filter (fun i => i ≠ "")).Nodup) :
    ((metadata_df raw).map (fun r => r.id)).Nodup := by
  rw [metadata_ids]
  exact h

theorem metadata_id_unique_of_distinct_block_ids_witness :
    ((((df1 twoRaw).map extractId).filter (fun i => i ≠ "")).Nodup) ∧
    ((metadata_df twoRaw).map (fun r => r.id)).Nodup :=
  ⟨by decide, metadata_id_unique_of_distinct_block_ids twoRaw (by decide)⟩

/-! ## The rating histogram -/

theorem insertRatingDesc_perm (x : String × Nat × ℚ)
    (l : List (String × Nat × ℚ)) :
    (insertRatingDesc x l).Perm (x :: l) := by
  induction l with
  | nil => exact List.Perm.refl _
  | cons y ys ih =>
      by_cases h : y.1 < x.1
      · simp [insertRatingDesc, h]
      · simp only [insertRatingDesc, if_neg h]
        exact (ih.cons y).trans (List.Perm.swap x y ys)

theorem sortByRatingDesc_perm (l : List (String × Nat × ℚ)) :
    (sortByRatingDesc l).Perm l := by
  induction l with
  | nil => exact List.Perm.refl _
  | cons x xs ih => exact (insertRatingDesc_perm x _).trans (ih.cons x)

theorem sum_map_sortByRatingDesc (l : List (String × Nat × ℚ))
    (f : String × Nat × ℚ → ℚ) :
    ((sortByRatingDesc l).map f).sum = (l.map f).sum :=
  ((sortByRatingDesc_perm l).map f).sum_eq

theorem rating_percentages_df_length
    (records : List ProductRecord) (p : String) :
    (rating_percentages_df records p).length =
      (rating_counts_df records p).length := by
  unfold rating_percentages_df
  rw [(sortByRatingDesc_perm _).length_eq, List.length_map]

/-- The total is the number of exploded review rows: the per-group counts
sum back to the length of the ratings column. -/
theorem total_ratings_eq_length (records : List ProductRecord) (p : String) :
    total_ratings records p = ((review_ratings records p).length : ℚ) := by
  unfold total_ratings rating_counts_df
  rw [List.map_map]
  have h := List.sum_map_count_dedup_eq_length (review_ratings records p)
  calc ((review_ratings records p).dedup.map
          (fun r => ((review_ratings records p).count r : ℚ))).sum
      = (((review_ratings records p).dedup.map
          (fun r => (review_ratings records p).count r)).sum : ℚ) := by
        rw [Nat.cast_list_sum, List.map_map]; rfl
    _ = ((review_ratings records p).length : ℚ) := by rw [h]

theorem rating_percentages_sum (records : List ProductRecord) (p : String)
    (hne : review_ratings records p ≠ []) :
    ((rating_percentages_df records p).map (fun x => x.2.2)).sum = 100 := by
  have hT := total_ratings_eq_length records p
  have hlen0 : (review_ratings records p).length ≠ 0 := by
    simpa [List.length_eq_zero] using hne
  have hlen : ((review_ratings records p).length : ℚ) ≠ 0 := by
    exact_mod_cast hlen0
  unfold rating_percentages_df
  rw [sum_map_sortByRatingDesc, List.map_map]
  unfold rating_counts_df
  rw [List.map_map]
  have hfun : (((fun x : String × Nat × ℚ => x.2.2) ∘
        (fun rc : String × Nat =>
          (rc.1, rc.2, ((rc.2 : ℚ) / total_ratings records p) * 100))) ∘
        (fun r => (r, (review_ratings records p).count r))) =
      (fun r => (((review_ratings records p).count r : ℚ)) *
        (100 / total_ratings records p)) := by
    funext r
    simp [Function.comp, div_mul_eq_mul_div, mul_div_assoc]
  rw [hfun, List.sum_map_mul_right]
  have htot : ((review_ratings records p).dedup.map
      (fun r => ((review_ratings records p).count r : ℚ))).sum =
      total_ratings records p := by
    unfold total_ratings rating_counts_df
    rw [List.map_map]
    rfl
  rw [htot, hT, mul_comm, div_mul_cancel₀ _ hlen]

/-- C2: for a product whose record has at least one review entry, the
percentages of `rating_percentages_df` sum exactly to 100 (the percentage
column is modelled with exact rational arithmetic). -/
theorem rating_histogram_sums_to_100 (records : List ProductRecord)
    (p : String) (h : ∃ r ∈ records, r.id = p ∧ r.reviews ≠ []) :
    ((rating_percentages_df records p).map (fun x => x.2.2)).sum = 100 := by
  apply rating_percentages_sum
  rcases h with ⟨r, hr, hid, hrev⟩
  have hmem : r.reviews ∈
      (records.filter (fun r => r.id = p)).map ProductRecord.reviews :=
    List.mem_map_of_mem _ (List.mem_filter.mpr ⟨hr, by simp [hid]⟩)
  rcases List.exists_mem_of_ne_nil _ hrev with ⟨x, hx⟩
  have : x ∈ product_reviews_df records p := by
    unfold product_reviews_df
    exact List.mem_flatten.mpr ⟨r.reviews, hmem, hx⟩
  intro hnil
  rw [review_ratings, List.map_eq_nil_iff] at hnil
  rw [hnil] at this
  exact List.not_mem_nil x this

theorem rating_histogram_sums_to_100_witness :
    (∃ r ∈ demoRecords, r.id = "21" ∧ r.reviews ≠ []) ∧
    ((rating_percentages_df demoRecords "21").map (fun x => x.2.2)).sum = 100 :=
  ⟨by decide, rating_histogram_sums_to_100 demoRecords "21" (by decide)⟩

/-! ## Zero-review products do not yield an empty histogram -/

/-- C3 counterexample: `zeroRevRaw` is a well-formed block for a product
with zero reviews (`total: 0`, empty review section); it parses to one
record with `reviews_total = "0"` and `reviews = [""]` (splitting the empty
review text yields one empty line), and the histogram for it is a non-empty
sequence — not the empty sequence the claim requires. -/
theorem rating_histogram_zero_reviews_counterexample :
    (metadata_df zeroRevRaw).map (fun r => (r.id, r.reviews_total, r.reviews)) =
      [("7", "0", [""])] ∧
    rating_percentages_df (metadata_df zeroRevRaw) "7" ≠ [] := by
  refine ⟨by decide, fun hnil => ?_⟩
  have hlen : (rating_percentages_df (metadata_df zeroRevRaw) "7").length = 0 := by
    rw [hnil]; rfl
  rw [rating_percentages_df_length] at hlen
  exact absurd hlen (by decide)

/-- C3 amended: for a product id whose (unique) matching record has the
zero-review reviews column `[""]`, the histogram is the singleton
`[("", 1, 100)]` — one group keyed by the empty rating string covering
100% — rather than the empty sequence. -/
theorem rating_histogram_zero_reviews_singleton
    (records : List ProductRecord) (p : String) (r : ProductRecord)
    (hf : records.filter (fun r => r.id = p) = [r])
    (hrev : r.reviews = [""]) :
    rating_percentages_df records p = [("", 1, 100)] := by
  have hpr : product_reviews_df records p = [""] := by
    unfold product_reviews_df
    rw [hf]
    simp [hrev]
  have hrr : review_ratings records p = [""] := by
    unfold review_ratings
    rw [hpr]
    rfl
  have hc : rating_counts_df records p = [("", 1)] := by
    unfold rating_counts_df
    rw [hrr]
    rfl
  have ht : total_ratings records p = 1 := by
    unfold total_ratings
    rw [hc]
    norm_num
  unfold rating_percentages_df
  rw [hc, ht]
  norm_num [sortByRatingDesc, insertRatingDesc]

theorem rating_histogram_zero_reviews_singleton_witness :
    (zeroRevRecords.filter (fun r => r.id = "9") = [zeroRevRecord]) ∧
    rating_percentages_df zeroRevRecords "9" = [("", 1, 100)] :=
  ⟨by decide, rating_histogram_zero_reviews_singleton zeroRevRecords "9"
      zeroRevRecord (by decide) (by decide)⟩

/-! ## BFS correctness -/

theorem mem_successors {E : List (Int × Int)} {u v : Int} :
    v ∈ successors E u ↔ (u, v) ∈ E := by
  simp only [successors, List.mem_map, List.mem_filter, decide_eq_true_eq]
  constructor
  · rintro ⟨⟨x, y⟩, ⟨hm, h1⟩, h2⟩
    simp only at h1 h2
    subst h1
    subst h2
    exact hm
  · intro h
    exact ⟨(u, v), ⟨h, rfl⟩, rfl⟩

theorem headD_of_head?_eq_some {α} {l : List α} {x d : α}
    (h : l.head? = some x) : l.headD d = x := by
  cases l <;> simp_all

/-- A reversed walk of length d + 1 is exactly an element of `rwalks E a d`:
it has length d + 1, ends (as stored) at `a`, and links consecutive nodes by
reversed edges. -/
theorem mem_rwalks {E : List (Int × Int)} {a : Int} :
    ∀ {d : Nat} {w : List Int}, w ∈ rwalks E a d ↔
      (w.length = d + 1 ∧ w.getLast? = some a ∧
       List.Chain' (fun x y => (y, x) ∈ E) w) := by
  intro d
  induction d with
  | zero =>
      intro w
      simp only [rwalks, List.mem_singleton]
      constructor
      · rintro rfl
        exact ⟨rfl, rfl, List.chain'_singleton a⟩
      · rintro ⟨hlen, hlast, _⟩
        rcases List.length_eq_one.mp hlen with ⟨x, rfl⟩
        simp only [List.getLast?_singleton, Option.some.injEq] at hlast
        rw [hlast]
  | succ d ih =>
      intro w
      simp only [rwalks, List.mem_flatMap, List.mem_map]
      constructor
      · rintro ⟨w', hw', v, hv, rfl⟩
        obtain ⟨hlen, hlast, hchain⟩ := ih.mp hw'
        rcases w' with _ | ⟨x, t⟩
        · simp at hlen
        · have hx : (x, v) ∈ E := by
            have : (x :: t).headD a = x := rfl
            rw [this] at hv
            exact mem_successors.mp hv
          refine ⟨by simp [hlen], by simpa using hlast, ?_⟩
          exact List.chain'_cons.mpr ⟨hx, hchain⟩
      · rintro ⟨hlen, hlast, hchain⟩
        rcases w with _ | ⟨v, w'⟩
        · simp at hlen
        · rcases w' with _ | ⟨x, t⟩
          · simp at hlen
          · have hx : (x, v) ∈ E ∧ List.Chain' (fun x y => (y, x) ∈ E) (x :: t) :=
              List.chain'_cons.mp hchain
            refine ⟨x :: t, ih.mpr ⟨by simpa using hlen, by simpa using hlast,
              hx.2⟩, v, ?_, rfl⟩
            have : (x :: t).headD a = x := rfl
            rw [this]
            exact mem_successors.mpr hx.1

theorem divergentB_iff {verts : List (Int × String)} {g0 : String} {v : Int} :
    divergentB verts g0 v = true ↔
      (groupOf verts v ≠ g0 ∧ groupOf verts v ≠ "") := by
  simp [divergentB]

/-- Any divergent walk, reversed, is an `rwalks` element hit by the bfs
filter at its own depth. -/
theorem rwalk_of_divergent_walk {verts : List (Int × String)}
    {E : List (Int × Int)} {a : Int} {g0 : String} {q : List Int}
    (hq : IsDivergentWalk verts E a g0 q) :
    q.reverse ∈ rwalks E a (q.length - 1) ∧
      divergentB verts g0 (q.reverse.headD a) = true := by
  obtain ⟨hh, hc, t, hlast, hg1, hg2⟩ := hq
  have hne : q ≠ [] := by
    intro h
    rw [h] at hh
    cases hh
  have hlen : q.length - 1 + 1 = q.length := by
    have : 0 < q.length := List.length_pos.mpr hne
    omega
  constructor
  · rw [mem_rwalks]
    refine ⟨by simp [hlen], by simpa using hh, ?_⟩
    rw [List.chain'_reverse]
    exact hc
  · have hrev : q.reverse.head? = some t := by simpa using hlast
    rw [headD_of_head?_eq_some hrev]
    exact divergentB_iff.mpr ⟨hg1, hg2⟩

theorem levelHit_some {verts : List (Int × String)} {E : List (Int × Int)}
    {a : Int} {g0 : String} {d : Nat} {p : List Int}
    (h : levelHit verts E a g0 d = some p) :
    ∃ w, w ∈ rwalks E a d ∧ divergentB verts g0 (w.headD a) = true ∧
      p = w.reverse := by
  unfold levelHit at h
  cases hf : (rwalks E a d).find? (fun w => divergentB verts g0 (w.headD a)) with
  | none => rw [hf] at h; cases h
  | some w =>
      rw [hf] at h
      have hd : divergentB verts g0 (w.headD a) = true := by
        have h2 := List.find?_some hf
        simpa using h2
      refine ⟨w, List.mem_of_find?_eq_some hf, hd, ?_⟩
      cases h
      rfl

theorem levelHit_none {verts : List (Int × String)} {E : List (Int × Int)}
    {a : Int} {g0 : String} {d : Nat}
    (h : levelHit verts E a g0 d = none) :
    ∀ w ∈ rwalks E a d, ¬ divergentB verts g0 (w.headD a) = true := by
  unfold levelHit at h
  cases hf : (rwalks E a d).find? (fun w => divergentB verts g0 (w.headD a)) with
  | none => exact List.find?_eq_none.mp hf
  | some w => rw [hf] at h; cases h

theorem searchUpTo_none {verts : List (Int × String)} {E : List (Int × Int)}
    {a : Int} {g0 : String} {n : Nat}
    (h : searchUpTo verts E a g0 n = none) :
    ∀ d ≤ n, levelHit verts E a g0 d = none := by
  induction n with
  | zero =>
      intro d hd
      have : d = 0 := Nat.le_zero.mp hd
      rw [this]
      exact h
  | succ n ih =>
      unfold searchUpTo at h
      cases hs : searchUpTo verts E a g0 n with
      | some q => rw [hs] at h; cases h
      | none =>
          rw [hs] at h
          intro d hd
          by_cases hdn : d ≤ n
          · exact ih hs d hdn
          · have hde : d = n + 1 := by omega
            rw [hde]
            exact h

theorem searchUpTo_some {verts : List (Int × String)} {E : List (Int × Int)}
    {a : Int} {g0 : String} {n : Nat} {p : List Int}
    (h : searchUpTo verts E a g0 n = some p) :
    ∃ d, d ≤ n ∧ levelHit verts E a g0 d = some p ∧
      ∀ d', d' < d → levelHit verts E a g0 d' = none := by
  induction n with
  | zero => exact ⟨0, Nat.le_refl 0, h, fun d' hd' => absurd hd' (Nat.not_lt_zero d')⟩
  | succ n ih =>
      unfold searchUpTo at h
      cases hs : searchUpTo verts E a g0 n with
      | some q =>
          rw [hs] at h
          cases h
          rcases ih hs with ⟨d, hdn, hhit, hmin⟩
          exact ⟨d, Nat.le_succ_of_le hdn, hhit, hmin⟩
      | none =>
          rw [hs] at h
          refine ⟨n + 1, Nat.le_refl _, h, fun d' hd' => ?_⟩
          exact searchUpTo_none hs d' (Nat.lt_succ_iff.mp hd')

/-- C5: when `firstDivergentCategoryPath` returns a path, it is a walk from
the start id along outgoing edges of the snapshot to a node whose group is
non-empty and differs from the start's group, it stays within the depth
bound, and it is a shortest such walk; when it returns `none` ("not
found" — an ordinary result, not an error), every such walk exceeds the
bound. -/
theorem firstDivergentCategoryPath_correct (verts : List (Int × String))
    (E : List (Int × Int)) (a : Int) (maxDepth : Nat) :
    (∀ p, firstDivergentCategoryPath verts E a maxDepth = some p →
      IsDivergentWalk verts E a (groupOf verts a) p ∧
      p.length ≤ maxDepth + 1 ∧
      (∀ q, IsDivergentWalk verts E a (groupOf verts a) q →
        p.length ≤ q.length)) ∧
    (firstDivergentCategoryPath verts E a maxDepth = none →
      ∀ q, IsDivergentWalk verts E a (groupOf verts a) q →
        maxDepth + 1 < q.length) := by
  constructor
  · intro p hp
    unfold firstDivergentCategoryPath at hp
    rcases searchUpTo_some hp with ⟨d, hdn, hhit, hmin⟩
    rcases levelHit_some hhit with ⟨w, hw, hdiv, rfl⟩
    obtain ⟨hlen, hlast, hchain⟩ := mem_rwalks.mp hw
    have hw_ne : w ≠ [] := by
      intro h
      rw [h] at hlen
      cases hlen
    have hhead : w.head? = some (w.headD a) := by
      cases w with
      | nil => exact absurd rfl hw_ne
      | cons x t => rfl
    refine ⟨⟨by simpa using hlast, ?_, w.headD a, by simpa using hhead,
        (divergentB_iff.mp hdiv).1, (divergentB_iff.mp hdiv).2⟩, ?_, ?_⟩
    · rw [List.chain'_reverse]
      exact hchain
    · rw [List.length_reverse, hlen]
      omega
    · intro q hq
      have hqpos : 0 < q.length := by
        rcases hq with ⟨hh, -, -⟩
        cases q with
        | nil => cases hh
        | cons x t => simp
      obtain ⟨hq1, hq2⟩ := rwalk_of_divergent_walk hq
      by_contra hlt
      push_neg at hlt
      have hwl : w.reverse.length = d + 1 := by rw [List.length_reverse, hlen]
      rw [hwl] at hlt
      have hqlen : q.length - 1 < d := by omega
      exact absurd hq2 (levelHit_none (hmin _ hqlen) q.reverse hq1)
  · intro hn q hq
    unfold firstDivergentCategoryPath at hn
    obtain ⟨hq1, hq2⟩ := rwalk_of_divergent_walk hq
    by_contra hle
    push_neg at hle
    have hd : q.length - 1 ≤ maxDepth := by omega
    exact absurd hq2 (levelHit_none (searchUpTo_none hn _ hd) q.reverse hq1)

theorem firstDivergentCategoryPath_correct_witness :
    firstDivergentCategoryPath demoVerts demoEdges 1 2 = none ∧
    firstDivergentCategoryPath demoVerts demoEdges 1 3 = some [1, 2, 3, 4] ∧
    IsDivergentWalk demoVerts demoEdges 1 (groupOf demoVerts 1) [1, 2, 3, 4] ∧
    ([1, 2, 3, 4] : List Int).length ≤ 3 + 1 := by
  have h := (firstDivergentCategoryPath_correct demoVerts demoEdges 1 3).1
    [1, 2, 3, 4] (by decide)
  exact ⟨by decide, by decide, h.1, h.2.1⟩

end AmazonProductData
